import Mathlib

/-!
Verification of the steam.py command-invocation engine against its
natural-language specification.

The embedding below translates the relevant parts of the source into Lean:

* `src/steam/ext/commands/commands.py` — the command registry
  (`GroupMixin.add_command`, `remove_command`, `get_command`), the boolean
  converter `to_bool`, the keyword-pair argument binder branch of
  `Command._parse_arguments`, and `Command.can_run`;
* `src/steam/ext/commands/bot.py` — `Bot.can_run`, `Bot.on_command_error`,
  the extension manager (`load_extension` / `unload_extension` /
  `reload_extension`) and listener registration;
* `src/steam/utils.py` — `make_steam64` (numeric-input path);
* `src/steam/enums.py` — `EnumMeta.__new__`, `EnumMeta.__setattr__`,
  `EnumMeta.__delattr__`.

Python dictionaries are modelled as association lists with insert-or-overwrite
and delete; Python exceptions are modelled by the `PyErr` type, and mutation of
shared state is modelled by explicit state passing: a stateful operation
returns the final state it leaves behind together with an optional raised
error, so that mutations surviving a raised exception stay observable.
-/

namespace SteamPy

/-- Python exceptions raised by the modelled code paths. -/
inductive PyErr where
  /-- `steam.errors.ClientException` with its message. -/
  | clientException (msg : String)
  /-- `KeyError` from `del d[key]` on a missing key. -/
  | keyError (key : String)
  /-- `ValueError`, e.g. from unpacking a list whose length is not 2. -/
  | valueError
  /-- `commands.errors.BadArgument` with its message. -/
  | badArgument (msg : String)
  /-- `ImportError` (also covers `ModuleNotFoundError` from a failed import). -/
  | importError (name : String)
  /-- `ModuleNotFoundError` raised by `unload_extension`/`reload_extension`. -/
  | moduleNotFound (name : String)
  /-- `TypeError` with its message. -/
  | typeError (msg : String)
  /-- an arbitrary exception raised by an extension's `setup` while running. -/
  | setupRaised
  /-- Modelled from the spec: `commands.errors.CheckFailure` (§7; `errors.py`
  is not among the given sources).  Only used to state that the check gate
  never produces it. -/
  | checkFailure
deriving DecidableEq, Repr

/-! ### Python `dict` as an association list

Keys are kept unique (insert overwrites in place, delete removes the key), so
the association list is an exact model of an insertion-ordered Python dict. -/

/-- Lookup `d.get(k)`. -/
def dlookup {α : Type} : List (String × α) → String → Option α
  | [], _ => none
  | (k', v') :: rest, k => if k' = k then some v' else dlookup rest k

/-- Membership test `k in d`. -/
def dcontains {α : Type} (d : List (String × α)) (k : String) : Bool :=
  (dlookup d k).isSome

/-- Assignment `d[k] = v`: overwrite in place when the key exists, else append
(the insertion-order semantics of a Python dict). -/
def dinsert {α : Type} : List (String × α) → String → α → List (String × α)
  | [], k, v => [(k, v)]
  | (k', v') :: rest, k, v =>
    if k' = k then (k', v) :: rest else (k', v') :: dinsert rest k v

/-- Key removal used by `del d[k]` once the key is known to exist.  Since keys
are unique, filtering the key out removes exactly the one binding. -/
def derase {α : Type} (d : List (String × α)) (k : String) : List (String × α) :=
  d.filter (fun p => p.1 ≠ k)

/-- Statement `del d[k]`: raises `KeyError` when the key is absent; the state
is returned alongside the optional error. -/
def ddel {α : Type} (d : List (String × α)) (k : String) :
    List (String × α) × Option PyErr :=
  if dcontains d k then (derase d k, none) else (d, some (.keyError k))

/-! ### The command tree (`commands.py`)

A `Cmd` is a registered command object: its `name`, its `aliases`
(`Command.__init__`), an identity tag distinguishing distinct command
objects, whether the object is a `GroupCommand` (i.e. a `GroupMixin`
instance), and — for groups — the nested `__commands__` registry. -/

/-- A `commands.Command` object.  `isGroup` is true exactly for
`GroupCommand` objects, whose nested registry is `sub`; plain commands carry
`isGroup = false` and an empty `sub`. -/
inductive Cmd where
  | mk (name : String) (aliases : List String) (id : Nat)
       (isGroup : Bool) (sub : List (String × Cmd))

/-- Accessor for the command's registered name. -/
def Cmd.name : Cmd → String
  | .mk n _ _ _ _ => n

/-- Accessor for the command's alias list. -/
def Cmd.aliases : Cmd → List String
  | .mk _ a _ _ _ => a

/-- A command registry: the `__commands__` mapping of a `GroupMixin`
(case-sensitive mode, the default). -/
abbrev Registry := List (String × Cmd)

/-- `GroupMixin.remove_command` (commands.py lines 311-330), translated
exactly: look the name up; on a miss return `None`; otherwise execute
`del self.__commands__[alias]` for every alias of the found command — note
that the source never deletes the entry under `name` itself — and return the
command.  A `KeyError` from one of the deletions aborts the loop, leaving the
deletions already performed in place. -/
def removeAliasesLoop (reg : Registry) : List String → Registry × Option PyErr
  | [] => (reg, none)
  | a :: rest =>
    match ddel reg a with
    | (reg', none) => removeAliasesLoop reg' rest
    | (reg', some e) => (reg', some e)

/-- Result of `remove_command`: final registry state, optional raised error,
and the returned command (when no error was raised). -/
def remove_command (reg : Registry) (name : String) :
    Registry × Option PyErr × Option Cmd :=
  match dlookup reg name with
  | none => (reg, none, none)
  | some command =>
    match removeAliasesLoop reg command.aliases with
    | (reg', none) => (reg', none, some command)
    | (reg', some e) => (reg', some e, none)

/-- The alias-registration loop of `GroupMixin.add_command` (commands.py
lines 305-309): for each alias, if it is already a key the source calls
`self.remove_command(command.name)` and then raises `ClientException`; a
`KeyError` raised inside that `remove_command` call propagates instead.
Otherwise the alias is bound and the loop continues. -/
def addAliasesLoop (reg : Registry) (cmdName : String) (command : Cmd) :
    List String → Registry × Option PyErr
  | [] => (reg, none)
  | a :: rest =>
    if dcontains reg a then
      match remove_command reg cmdName with
      | (reg', none, _) =>
        (reg', some (.clientException s!"{a} is already an existing command or alias."))
      | (reg', some e, _) => (reg', some e)
    else addAliasesLoop (dinsert reg a command) cmdName command rest

/-- `GroupMixin.add_command` (commands.py lines 283-309) for a top-level
registry (the registry owner is not itself a `Command`, and the added command
has no group parent, so the parent-redirect branch of lines 297-302 is not
taken): refuse an already-registered name, bind the name, then run the alias
loop. -/
def add_command (reg : Registry) (command : Cmd) : Registry × Option PyErr :=
  if dcontains reg command.name then
    (reg, some (.clientException s!"The command {command.name} is already registered."))
  else
    addAliasesLoop (dinsert reg command.name command) command.name command command.aliases

/-- Helper for `pySplit`: walk the character list accumulating the current
token (in reverse), emitting a token at each whitespace run boundary. -/
def pySplitAux : List Char → List Char → List String
  | [], [] => []
  | [], acc => [String.mk acc.reverse]
  | c :: rest, acc =>
    if c.isWhitespace then
      match acc with
      | [] => pySplitAux rest []
      | _ => String.mk acc.reverse :: pySplitAux rest []
    else pySplitAux rest (c :: acc)

/-- Python `str.split()` with no separator: split on whitespace runs,
discarding empty pieces. -/
def pySplit (s : String) : List String :=
  pySplitAux s.data []

/-- The recursion of `GroupMixin.get_command` on a space-containing path
(commands.py lines 348-355), reformulated on the token list produced by
`name.split()`.  The source recurses on the re-joined tail
`" ".join(names[1:])`; since the tokens produced by `split()` are nonempty and
whitespace-free, re-splitting the joined tail yields the tail itself, so the
recursion is expressed directly on the list.  The `[]` case corresponds to a
re-joined empty tail, i.e. the lookup of `""`. -/
def getPath (reg : Registry) : List String → Option Cmd
  | [] => dlookup reg ""
  | [n] => dlookup reg n
  | n :: rest =>
    match dlookup reg n with
    | some (.mk _ _ _ true sub) => getPath sub rest
    | other => other

/-- `GroupMixin.get_command` (commands.py lines 332-355): a name without a
space character (the test `" " not in name`, expressed on the character
data) is looked up directly; otherwise the name is split and nested groups
are traversed. -/
def get_command (reg : Registry) (name : String) : Option Cmd :=
  if ¬ ' ' ∈ name.data then dlookup reg name
  else
    match pySplit name with
    | [] => none
    | n :: rest =>
      match dlookup reg n with
      | some (.mk _ _ _ true sub) => getPath sub rest
      | other => other

/-! ### `to_bool` (commands.py lines 62-69) -/

/-- The canonical true tokens of `to_bool`. -/
def trueOptions : List String := ["yes", "y", "true", "t", "1", "enable", "on"]

/-- The canonical false tokens of `to_bool`. -/
def falseOptions : List String := ["no", "n", "false", "f", "0", "disable", "off"]

/-- `to_bool(argument)`: lower-case the argument, test membership in the two
canonical sets, otherwise raise `BadArgument`. -/
def to_bool (argument : String) : Except PyErr Bool :=
  let lowered := argument.toLower
  if lowered ∈ trueOptions then .ok true
  else if lowered ∈ falseOptions then .ok false
  else .error (.badArgument s!"\x22{lowered}\x22 is not a recognised boolean option")

/-! ### The `**kwargs` binding branch of `Command._parse_arguments`
(commands.py lines 191-209)

With no annotation the key and value converters both resolve (through
`_get_converter`) to `str` itself; `_convert` with the `str` converter runs
`converter(argument)` inside a `try/except TypeError`, and `str(argument)` on
a string returns it unchanged, so the default converters are the identity and
never raise. -/

/-- `Command._convert` specialised to the default `str` converter: `str` has no
`convert` attribute and is not `bool`, so `str(argument)` is returned (the
`TypeError` wrap never fires for a string input). -/
def convertWithStr (argument : String) : Except PyErr String := .ok argument

/-- The dict comprehension `{key: value for (key, value) in kv_pairs}` of the
`VAR_KEYWORD` branch: each element of `kv_pairs` is unpacked into
`(key, value)` — a `ValueError` when the element's length is not exactly 2 —
then key and value are converted and inserted (later duplicate keys
overwrite). -/
def buildKwargs (acc : List (String × String)) :
    List (List String) → Except PyErr (List (String × String))
  | [] => .ok acc
  | [k, v] :: rest =>
    match convertWithStr k, convertWithStr v with
    | .ok k', .ok v' => buildKwargs (dinsert acc k' v') rest
    | .error e, _ => .error e
    | _, .error e => .error e
  | _ :: _ => .error .valueError

/-- Helper for `splitEq`: split a character list at every `=`. -/
def splitEqAux : List Char → List Char → List String
  | [], acc => [String.mk acc.reverse]
  | c :: rest, acc =>
    if c = '=' then String.mk acc.reverse :: splitEqAux rest []
    else splitEqAux rest (c :: acc)

/-- Python `arg.split("=")`: split at every `=`, keeping empty pieces. -/
def splitEq (arg : String) : List String :=
  splitEqAux arg.data []

/-- The `VAR_KEYWORD` branch of `_parse_arguments` on the remaining tokens,
for a parameter annotated (or defaulted) to `Dict[str, str]`:
`kv_pairs = [arg.split("=") for arg in arguments]` followed by the dict
comprehension. -/
def bindVarKeywordPairs (arguments : List String) :
    Except PyErr (List (String × String)) :=
  buildKwargs [] (arguments.map splitEq)

/-! ### The check gate (`Bot.can_run`, bot.py lines 460-476, and
`Command.can_run`, commands.py lines 266-269)

A check predicate is modelled as a function from the context to either a
raised error or a boolean result (`maybe_coroutine` simply awaits/returns the
call, so it is application). -/

/-- A check predicate over an abstract context type. -/
abbrev CheckFun (κ : Type) := κ → Except PyErr Bool

/-- `Command.can_run`: iterate the command's checks, awaiting each call and
discarding its boolean result; return `True` unless a check raises. -/
def commandCanRun {κ : Type} (checks : List (CheckFun κ)) (ctx : κ) :
    Except PyErr Bool :=
  match checks with
  | [] => .ok true
  | c :: rest =>
    match c ctx with
    | .error e => .error e
    | .ok _ => commandCanRun rest ctx

/-- `Bot.can_run`: iterate the bot's global checks; a check returning a falsy
value makes the whole call return `False` immediately; when every global check
passes, defer to `ctx.command.can_run(ctx)`. -/
def botCanRun {κ : Type} (globalChecks commandChecks : List (CheckFun κ))
    (ctx : κ) : Except PyErr Bool :=
  match globalChecks with
  | [] => commandCanRun commandChecks ctx
  | c :: rest =>
    match c ctx with
    | .error e => .error e
    | .ok false => .ok false
    | .ok true => botCanRun rest commandChecks ctx

/-! ### The error chain (`Bot.on_command_error`, bot.py lines 641-666)

The handler's observable behaviour is which tier consumes the error, modelled
by the `Handled` type.  `ctx.command` may be `None` (the `CommandNotFound`
case), in which case `hasattr(ctx.command, "on_error")` is false and
`ctx.command` prints as `None`. -/

/-- The command field of a `Context` as seen by the error handler: its name
and the id of its registered `on_error` hook if the `error` decorator set
one (`hasattr(ctx.command, "on_error")`). -/
structure CtxCommand where
  name : String
  onError : Option Nat
deriving DecidableEq, Repr

/-- The cog field of a `Context` as seen by the error handler: whether the cog
object is the bot itself (commands declared on a `Bot` subclass get
`attr.cog = self`), and an identity for its `cog_command_error` hook. -/
structure CogRef where
  isBot : Bool
  id : Nat
deriving DecidableEq, Repr

/-- The part of a `Context` consumed by `Bot.on_command_error`. -/
structure ErrCtx where
  command : Option CtxCommand
  cog : Option CogRef
deriving DecidableEq, Repr

/-- Which tier of `Bot.on_command_error` consumed the error. -/
inductive Handled where
  /-- every listener registered under `on_command_error` was invoked (in
  order); an empty registered list invokes nobody but still returns. -/
  | listenersInvoked (ls : List Nat)
  /-- the command's own `on_error` hook ran. -/
  | commandHook (h : Nat)
  /-- the owning cog's `cog_command_error` hook ran. -/
  | cogHook (c : Nat)
  /-- the command name and the full traceback were printed to stderr. -/
  | printedTrace (cmdName : Option String)
deriving DecidableEq, Repr

/-- The cog tier and final print of `on_command_error` (bot.py lines
662-666): `if ctx.cog and ctx.cog is not self` routes to the cog hook,
otherwise the traceback is printed. -/
def cogTierOrPrint (ctx : ErrCtx) : Handled :=
  match ctx.cog with
  | some cg => if cg.isBot then .printedTrace (ctx.command.map (·.name)) else .cogHook cg.id
  | none => .printedTrace (ctx.command.map (·.name))

/-- `Bot.on_command_error` (bot.py lines 641-666).  The guard
`default != self.on_command_error and default is not None` compares a list of
listeners against a bound method, which is always unequal, so the guard
reduces to the table lookup succeeding; when it succeeds every registered
listener is invoked and the handler returns.  Only then is the command's
`on_error` hook consulted, then the cog hook, then the print. -/
def on_command_error (listenersTable : List (String × List Nat)) (ctx : ErrCtx) :
    Handled :=
  match dlookup listenersTable "on_command_error" with
  | some ls => .listenersInvoked ls
  | none =>
    match ctx.command with
    | some c =>
      match c.onError with
      | some h => .commandHook h
      | none => cogTierOrPrint ctx
    | none => cogTierOrPrint ctx

/-- Modelled from the spec: the error-chain order claimed by §4.7 as amended
to the source's actual tier order — external listeners first (all invoked when
the table has an entry for the event name), then the command's own hook, then
the cog hook when the cog exists and is not the bot itself, then the printed
trace.  Stated as a second definition to compare with `on_command_error`. -/
def errorChainAmendedSpec (listenersTable : List (String × List Nat))
    (ctx : ErrCtx) : Handled :=
  match dlookup listenersTable "on_command_error" with
  | some ls => .listenersInvoked ls
  | none =>
    match ctx.command.bind (·.onError) with
    | some h => .commandHook h
    | none =>
      match ctx.cog with
      | some cg =>
        if ¬ cg.isBot then .cogHook cg.id
        else .printedTrace (ctx.command.map (·.name))
      | none => .printedTrace (ctx.command.map (·.name))

/-! ### `EnumMeta` (enums.py lines 100-178)

Enum class attributes are modelled as plain integer values (descriptor and
classmethod entries, which the source filters out or passes through, do not
occur in the enum declarations).  The metaclass loop builds the value→member
and name→member mappings; `__setattr__` and `__delattr__` on the resulting
class raise `TypeError` unconditionally. -/

/-- A `_EnumValue_*` member: the namedtuple `(name, value)`. -/
structure EnumValue where
  name : String
  value : Int
deriving DecidableEq, Repr

/-- The mappings an enum class carries after `EnumMeta.__new__`:
`_enum_value_map_`, `_enum_member_map_` and `_enum_member_names_`. -/
structure EnumCls where
  valueMap : List (Int × EnumValue)
  memberMap : List (String × EnumValue)
  memberNames : List String
deriving DecidableEq, Repr

/-- Integer-keyed variant of `dlookup` for `_enum_value_map_`. -/
def vlookup : List (Int × EnumValue) → Int → Option EnumValue
  | [], _ => none
  | (k', v') :: rest, k => if k' = k then some v' else vlookup rest k

/-- Integer-keyed variant of `dinsert`. -/
def vinsert : List (Int × EnumValue) → Int → EnumValue → List (Int × EnumValue)
  | [], k, v => [(k, v)]
  | (k', v') :: rest, k, v =>
    if k' = k then (k', v) :: rest else (k', v') :: vinsert rest k v

/-- The attribute loop of `EnumMeta.__new__` (enums.py lines 107-129): skip
keys beginning with an underscore; a value already present in the value map
makes the key an alias (bound in the member map but not appended to the member
names); a new value creates a member bound in both maps. -/
def enumBuild (cls : EnumCls) : List (String × Int) → EnumCls
  | [] => cls
  | (key, value) :: rest =>
    if key.data.head? = some '_' then enumBuild cls rest
    else
      match vlookup cls.valueMap value with
      | some nv =>
        enumBuild { cls with memberMap := dinsert cls.memberMap key nv } rest
      | none =>
        let nv : EnumValue := ⟨key, value⟩
        enumBuild
          { valueMap := vinsert cls.valueMap value nv
            memberMap := dinsert cls.memberMap key nv
            memberNames := cls.memberNames ++ [key] } rest

/-- `EnumMeta.__new__`: build the three mappings from the class body's
attribute list. -/
def enumMetaNew (attrs : List (String × Int)) : EnumCls :=
  enumBuild ⟨[], [], []⟩ attrs

/-- `EnumMeta.__setattr__` (enums.py lines 174-175): raises `TypeError`
unconditionally, so no mutated class is ever produced. -/
def enumSetattr (_cls : EnumCls) (_name : String) (_value : Int) :
    Except PyErr EnumCls :=
  .error (.typeError "Enums are immutable.")

/-- `EnumMeta.__delattr__` (enums.py lines 177-178): raises `TypeError`
unconditionally. -/
def enumDelattr (_cls : EnumCls) (_attr : String) : Except PyErr EnumCls :=
  .error (.typeError "Enums are immutable")

/-! ### `make_steam64` (utils.py lines 68-152), numeric-input path

The input is a nonnegative integer (equivalently a digit string, which the
source converts back with `int`), with no extra positional arguments and no
keyword arguments beyond an optional `is_clan`.  The enum arithmetic of the
final line reduces to plain integers: `EUniverse.Public = 1`,
`EType.Individual = 1`, `EType.Clan = 7`, `EType.GameServer = 3`
(enums.py), `EType.try_value`/`EUniverse.try_value` leave the already-typed
values alone, and `int()` of a member is its value. -/

/-- `make_steam64(value, is_clan=is_clan)` for a nonnegative numeric input.
The bitmasks `0xFFFFFFFF`, `0xFFFFF`, `0xF`, `0xFF` are written as `%` of the
corresponding powers of two. -/
def make_steam64 (value : Nat) (is_clan : Bool) : Nat :=
  let idEtypeUniverseInst : Nat × Nat × Nat × Option Nat :=
    if 0 < value ∧ value < 2 ^ 32 then
      (value, if is_clan then 7 else 1, 1, none)
    else if value < 2 ^ 64 then
      (value % 2 ^ 32, (value >>> 52) % 16, (value >>> 56) % 256,
        some ((value >>> 32) % 2 ^ 20))
    else
      (0, 0, 0, none)
  match idEtypeUniverseInst with
  | (id, etype, uni, inst?) =>
    let inst : Nat :=
      match inst? with
      | some i => i
      | none => if etype = 1 ∨ etype = 3 then 1 else 0
    uni <<< 56 ||| etype <<< 52 ||| inst <<< 32 ||| id

/-! ### The extension manager (bot.py lines 270-344)

State carried by a `Bot`: the `__commands__` registry (command objects are
opaque `Nat` ids here — aliases and grouping play no role in the extension
claims), the `__listeners__` table, the `__cogs__` table, the
`__extensions__` table, and `sys.modules`.

A module on disk is a `PyModule`: whether it exposes `setup`, the cogs its
`setup` registers (in order), and an optional injected failure point
(`failAfter = some n` makes `setup` raise after registering `n` cogs —
this models an arbitrary exception inside `setup`).  A module's `teardown`
is modelled as having no effect on the tables.

`Cog._inject`/`Cog._eject` live in `cog.py`, which is not part of the given
sources; they are modelled from the spec (§4.9): inject registers every
command the cog declares and the cog's listeners (listener registration
matching `Bot.add_listener`), eject removes exactly what inject added
(listener removal matching `Bot.remove_listener`). -/

/-- A cog as registered by an extension: qualified name, the defining
module's name (`__module__`), its command declarations (name ↦ opaque
command id), and its listener declarations (event name ↦ opaque listener
id). -/
structure CogM where
  qualifiedName : String
  module : String
  cmds : List (String × Nat)
  listenerDecls : List (String × Nat)
deriving DecidableEq, Repr

/-- An extension module: `setup` presence, the cogs `setup` adds via
`bot.add_cog`, and the injected failure point for `setup`. -/
structure PyModule where
  hasSetup : Bool
  cogs : List CogM
  failAfter : Option Nat
deriving DecidableEq, Repr

/-- The shared tables of a `Bot`. -/
structure BotState where
  commands : List (String × Nat)
  listeners : List (String × List Nat)
  cogs : List (String × CogM)
  extensions : List (String × PyModule)
  modules : List (String × PyModule)
deriving DecidableEq, Repr

/-- Table-level effect of `Bot.add_listener` (bot.py lines 371-389): append
to the event's list, creating the entry when absent. -/
def addL (d : List (String × List Nat)) (ev : String) (l : Nat) :
    List (String × List Nat) :=
  match dlookup d ev with
  | some ls => dinsert d ev (ls ++ [l])
  | none => dinsert d ev [l]

/-- Table-level effect of `Bot.remove_listener` (bot.py lines 391-406):
remove the first occurrence from the event's list, silently ignoring a
missing event or listener; the (possibly emptied) entry stays in the
table. -/
def remL (d : List (String × List Nat)) (ev : String) (l : Nat) :
    List (String × List Nat) :=
  match dlookup d ev with
  | some ls => dinsert d ev (ls.erase l)
  | none => d

/-- `Bot.add_listener`. -/
def addListener (st : BotState) (ev : String) (l : Nat) : BotState :=
  { st with listeners := addL st.listeners ev l }

/-- `Bot.remove_listener`. -/
def removeListener (st : BotState) (ev : String) (l : Nat) : BotState :=
  { st with listeners := remL st.listeners ev l }

/-- Binding a run of key/value pairs in order. -/
def dinsertAll {α : Type} (d : List (String × α)) (ps : List (String × α)) :
    List (String × α) :=
  ps.foldl (fun d p => dinsert d p.1 p.2) d

/-- Deleting a run of keys in order. -/
def eraseKeys {α : Type} (d : List (String × α)) (ks : List String) :
    List (String × α) :=
  ks.foldl derase d

/-- Registering a run of listener declarations in order. -/
def foldAddL (d : List (String × List Nat)) (ps : List (String × Nat)) :
    List (String × List Nat) :=
  ps.foldl (fun d p => addL d p.1 p.2) d

/-- Removing a run of listener declarations in order. -/
def foldRemL (d : List (String × List Nat)) (ps : List (String × Nat)) :
    List (String × List Nat) :=
  ps.foldl (fun d p => remL d p.1 p.2) d

/-- Modelled from the spec: `Cog._inject` (cog.py, not in the given sources;
§4.9) — register every command the cog declares and every listener entry
(the latter through the `add_listener` table effect). -/
def cogInject (st : BotState) (cog : CogM) : BotState :=
  { st with commands := dinsertAll st.commands cog.cmds,
            listeners := foldAddL st.listeners cog.listenerDecls }

/-- Modelled from the spec: `Cog._eject` (cog.py, not in the given sources;
§4.9) — remove exactly the commands and listeners the matching inject added
(the latter through the `remove_listener` table effect). -/
def cogEject (st : BotState) (cog : CogM) : BotState :=
  { st with commands := eraseKeys st.commands (cog.cmds.map Prod.fst),
            listeners := foldRemL st.listeners cog.listenerDecls }

/-- `Bot.add_cog` (bot.py lines 346-358): inject, then bind the cog under its
qualified name. -/
def addCog (st : BotState) (cog : CogM) : BotState :=
  let st₁ := cogInject st cog
  { st₁ with cogs := dinsert st₁.cogs cog.qualifiedName cog }

/-- `Bot.remove_cog` (bot.py lines 360-369): eject, then delete the table
entry. -/
def removeCog (st : BotState) (cog : CogM) : BotState :=
  let st₁ := cogEject st cog
  { st₁ with cogs := derase st₁.cogs cog.qualifiedName }

/-- Running a module's `setup(bot)`: add each cog in order via `add_cog`;
with `failAfter = some n`, raise after `n` cogs have been added, leaving the
partial registrations in place. -/
def runSetup (st : BotState) : List CogM → Option Nat → BotState × Option PyErr
  | _, some 0 => (st, some .setupRaised)
  | [], _ => (st, none)
  | c :: rest, fa =>
    runSetup (addCog st c)
      rest (match fa with | some (n + 1) => some n | some 0 => some 0 | none => none)

/-- `Bot.load_extension` (bot.py lines 270-289): no-op when already loaded;
then import the module (registering it in `sys.modules`; a missing module raises
`ModuleNotFoundError`); a module without `setup` is dropped from
`sys.modules` and `ImportError` is raised; otherwise run `setup` and on
success record the extension.  `env` is the module content on disk. -/
def loadExtension (st : BotState) (env : List (String × PyModule))
    (extension : String) : BotState × Option PyErr :=
  if dcontains st.extensions extension then (st, none)
  else
    match dlookup env extension with
    | none => (st, some (.importError extension))
    | some m =>
      let st₁ := { st with modules := dinsert st.modules extension m }
      if ¬ m.hasSetup then
        ({ st₁ with modules := derase st₁.modules extension },
          some (.importError extension))
      else
        match runSetup st₁ m.cogs m.failAfter with
        | (st₂, none) =>
          ({ st₂ with extensions := dinsert st₂.extensions extension m }, none)
        | (st₂, some e) => (st₂, some e)

/-- `Bot.unload_extension` (bot.py lines 291-317): a missing extension raises
`ModuleNotFoundError`; otherwise remove every cog whose `__module__` equals
the module's name, run `teardown` when present (modelled effect-free), and
delete the `sys.modules` and `__extensions__` entries. -/
def unloadExtension (st : BotState) (extension : String) :
    BotState × Option PyErr :=
  match dlookup st.extensions extension with
  | none => (st, some (.moduleNotFound extension))
  | some _ =>
    let toRemove := st.cogs.filter (fun p => p.2.module = extension)
    let st₁ := toRemove.foldl (fun s p => removeCog s p.2) st
    match ddel st₁.modules extension with
    | (mods, none) =>
      ({ st₁ with modules := mods,
                  extensions := derase st₁.extensions extension }, none)
    | (mods, some e) => ({ st₁ with modules := mods }, some e)

/-- The restoration block of `Bot.reload_extension` (bot.py lines 340-344):
re-run the previous module's `setup`, re-register it under the extension name
in `__extensions__` and `sys.modules`, and re-raise the original error.  An
error raised by `previous.setup` itself propagates instead and skips the
re-registration. -/
def restorePrevious (st : BotState) (previous : PyModule) (extension : String)
    (original : PyErr) : BotState × Option PyErr :=
  match runSetup st previous.cogs previous.failAfter with
  | (st₁, none) =>
    ({ st₁ with extensions := dinsert st₁.extensions extension previous,
                modules := dinsert st₁.modules extension previous },
      some original)
  | (st₁, some e) => (st₁, some e)

/-- `Bot.reload_extension` (bot.py lines 319-344): snapshot the loaded module;
unload then load; any exception from either phase triggers the restoration
block and is re-raised. -/
def reloadExtension (st : BotState) (env : List (String × PyModule))
    (extension : String) : BotState × Option PyErr :=
  match dlookup st.extensions extension with
  | none => (st, some (.moduleNotFound extension))
  | some previous =>
    match unloadExtension st extension with
    | (st₁, some e) => restorePrevious st₁ previous extension e
    | (st₁, none) =>
      match loadExtension st₁ env extension with
      | (st₂, none) => (st₂, none)
      | (st₂, some e) => restorePrevious st₂ previous extension e

/-! ### Auxiliary definitions used only in the statements and proofs -/

/-- Modelled from the spec, as amended for C6: segment-by-segment traversal of
nested group registries — a missing segment yields nothing, and a non-group
command reached at a non-final segment is returned itself.  Stated as a second
definition to compare with `get_command`. -/
def resolvePathSpec (reg : Registry) : List String → Option Cmd
  | [] => none
  | [n] => dlookup reg n
  | n :: rest =>
    match dlookup reg n with
    | none => none
    | some (.mk _ _ _ true sub) => resolvePathSpec sub rest
    | some c => some c

/-- Whether a binder outcome is a raised `BadArgument`. -/
def isBadArgumentFailure : Except PyErr (List (String × String)) → Bool
  | .error (.badArgument _) => true
  | _ => false

/-- All command declarations of a cog list, in registration order. -/
def catCmds : List CogM → List (String × Nat)
  | [] => []
  | c :: rest => c.cmds ++ catCmds rest

/-- All listener declarations of a cog list, in registration order. -/
def catListeners : List CogM → List (String × Nat)
  | [] => []
  | c :: rest => c.listenerDecls ++ catListeners rest

/-- The listener ids a declaration run registers under one event, in order. -/
def selEv (ps : List (String × Nat)) (ev : String) : List Nat :=
  (ps.filter (fun p => p.1 = ev)).map (·.2)

/-- Erasing a run of listener ids in order. -/
def eraseSeq (ls : List Nat) (s : List Nat) : List Nat :=
  s.foldl List.erase ls

/-- The per-event view taken by a run of listener registrations: no entry and
nothing registered leaves no entry, anything else appends to the (possibly
created) entry. -/
def combineAdd (o : Option (List Nat)) (s : List Nat) : Option (List Nat) :=
  match o, s with
  | none, [] => none
  | o, s => some (o.getD [] ++ s)

/-- `setup` of a healthy module: register each cog in order. -/
def injectCogs (st : BotState) (cs : List CogM) : BotState :=
  cs.foldl addCog st

/-- The cog-removal loop of `unload_extension`: remove each cog in order. -/
def removeCogs (st : BotState) (cs : List CogM) : BotState :=
  cs.foldl removeCog st

/-! ### Concrete fixtures for the counterexample and evaluation theorems -/

/-- A plain registered command named `old` with no aliases. -/
def cmdOld : Cmd := .mk "old" [] 0 false []

/-- A command named `new` whose single alias collides with `old`. -/
def cmdNew : Cmd := .mk "new" ["old"] 1 false []

/-- A plain registered command named `c` with no aliases. -/
def cmdSolo : Cmd := .mk "c" [] 2 false []

/-- A plain (non-group) command named `foo`. -/
def fooPlain : Cmd := .mk "foo" [] 10 false []

/-- A subcommand named `set` inside the `conf` group. -/
def setSub : Cmd := .mk "set" [] 21 false []

/-- A group named `conf` containing the subcommand `set`. -/
def confGroup : Cmd := .mk "conf" [] 20 true [("set", setSub)]

/-- An error context whose command has a registered `on_error` hook. -/
def errCtxWithHook : ErrCtx := { command := some ⟨"boom", some 7⟩, cog := none }

/-- The cog registered by the previously loaded extension `ext`. -/
def cogA : CogM := ⟨"A", "ext", [("acmd", 1)], [("on_x", 10)]⟩

/-- The previously loaded extension module: healthy `setup` adding `cogA`. -/
def modPrev : PyModule := ⟨true, [cogA], none⟩

/-- The cog the replacement module registers before its `setup` raises. -/
def cogX : CogM := ⟨"X", "ext", [("xcmd", 2)], []⟩

/-- The replacement module on disk: its `setup` registers `cogX` and then
raises. -/
def modBad : PyModule := ⟨true, [cogX], some 1⟩

/-- The bot state with `modPrev` loaded under `ext`. -/
def stPrev : BotState :=
  { commands := [("acmd", 1)]
    listeners := [("on_x", [10])]
    cogs := [("A", cogA)]
    extensions := [("ext", modPrev)]
    modules := [("ext", modPrev)] }

/-- The on-disk environment at reload time: `ext` now contains `modBad`. -/
def envBad : List (String × PyModule) := [("ext", modBad)]

/-- A module without a `setup` entry point: importing it fails cleanly,
before any registration. -/
def modNoSetup : PyModule := ⟨false, [], none⟩

/-- A bot state with every table empty. -/
def emptyBot : BotState := ⟨[], [], [], [], []⟩

/-- The on-disk environment where `ext` now lacks a `setup` function. -/
def envNoSetup : List (String × PyModule) := [("ext", modNoSetup)]


/-! ## Dictionary lemmas -/

theorem dlookup_dinsert {α : Type} (d : List (String × α)) (k k' : String) (v : α) :
    dlookup (dinsert d k v) k' = if k' = k then some v else dlookup d k' := by
  induction d with
  | nil =>
    by_cases h : k' = k
    · subst h; simp [dinsert, dlookup]
    · simp [dinsert, dlookup, h, Ne.symm h]
  | cons p rest ih =>
    obtain ⟨k₀, v₀⟩ := p
    by_cases h0 : k₀ = k
    · subst h0
      by_cases h : k' = k₀
      · subst h; simp [dinsert, dlookup]
      · simp [dinsert, dlookup, h, Ne.symm h]
    · by_cases h : k' = k₀
      · subst h
        simp [dinsert, dlookup, h0, Ne.symm h0]
      · simp [dinsert, dlookup, h0, h, Ne.symm h, ih]

theorem derase_cons {α : Type} (k₀ k : String) (v₀ : α) (rest : List (String × α)) :
    derase ((k₀, v₀) :: rest) k
      = if k₀ = k then derase rest k else (k₀, v₀) :: derase rest k := by
  by_cases h : k₀ = k <;> simp [derase, List.filter_cons, h]

theorem dlookup_derase {α : Type} (d : List (String × α)) (k k' : String) :
    dlookup (derase d k) k' = if k' = k then none else dlookup d k' := by
  induction d with
  | nil =>
    by_cases h : k' = k <;> simp [derase, dlookup, h]
  | cons p rest ih =>
    obtain ⟨k₀, v₀⟩ := p
    rw [derase_cons]
    by_cases h0 : k₀ = k
    · subst h0
      by_cases h : k' = k₀
      · subst h; simp [dlookup, ih]
      · simp [dlookup, h, Ne.symm h, ih]
    · by_cases h : k' = k₀
      · subst h
        simp [dlookup, h0, Ne.symm h0, ih]
      · simp [dlookup, h0, h, Ne.symm h, ih]

theorem dinsert_fresh {α : Type} (d : List (String × α)) (k : String) (v : α)
    (h : dlookup d k = none) : dinsert d k v = d ++ [(k, v)] := by
  induction d with
  | nil => simp [dinsert]
  | cons p rest ih =>
    obtain ⟨k₀, v₀⟩ := p
    by_cases h0 : k₀ = k
    · simp [dlookup, h0] at h
    · simp [dlookup, h0] at h
      simp [dinsert, h0, ih h]

theorem derase_fresh {α : Type} (d : List (String × α)) (k : String)
    (h : dlookup d k = none) : derase d k = d := by
  induction d with
  | nil => simp [derase]
  | cons p rest ih =>
    obtain ⟨k₀, v₀⟩ := p
    by_cases h0 : k₀ = k
    · simp [dlookup, h0] at h
    · simp [dlookup, h0] at h
      simp [derase] at ih ⊢
      exact ⟨fun hk => absurd hk h0, ih h⟩

/-! ## Claim theorems -/

/-- C1.  The claim says `add(command)` with a colliding alias raises and
leaves the registry exactly as before (all-or-nothing).  Evaluating the code:
with only `old ↦ cmdOld` registered, adding `cmdNew` (name `new`, alias
`old`) raises the expected `ClientException`, but the roll-back it attempts
via `remove_command` deletes only alias keys — which here removes the *other*
command's entry `old` — and never the new name key, so the final registry is
`new ↦ cmdNew`: the colliding registration survives and the pre-existing
command is destroyed. -/
theorem C1_add_command_rollback_broken :
    add_command [("old", cmdOld)] cmdNew
      = ([("new", cmdNew)],
          some (.clientException "old is already an existing command or alias.")) := by
  rfl

/-- C7.  The claim says `remove(name)` removes the command's name entry and
all alias entries and returns the command.  Evaluating the code on a
registered command `c` with no aliases: the command is returned but the name
entry is still present, because `remove_command` deletes only the alias keys
and never `self.__commands__[name]`. -/
theorem C7_remove_command_leaves_name_entry :
    remove_command [("c", cmdSolo)] "c" = ([("c", cmdSolo)], none, some cmdSolo) := by
  rfl

/-- C8.  Boolean conversion returns true exactly on lower-cased membership in
`{yes,y,true,t,1,enable,on}`, false exactly on membership in
`{no,n,false,f,0,disable,off}`, and raises `BadArgument` exactly
otherwise. -/
theorem C8_to_bool_complete (s : String) :
    (to_bool s = .ok true ↔ s.toLower ∈ trueOptions) ∧
    (to_bool s = .ok false ↔ s.toLower ∈ falseOptions) ∧
    ((s.toLower ∉ trueOptions ∧ s.toLower ∉ falseOptions) ↔
      to_bool s
        = .error (.badArgument
            s!"\x22{s.toLower}\x22 is not a recognised boolean option")) := by
  have hdisj : ∀ x ∈ trueOptions, x ∉ falseOptions := by decide
  by_cases h1 : s.toLower ∈ trueOptions
  · have h2 : s.toLower ∉ falseOptions := hdisj _ h1
    refine ⟨?_, ?_, ?_⟩ <;> simp [to_bool, h1, h2]
  · by_cases h2 : s.toLower ∈ falseOptions
    · refine ⟨?_, ?_, ?_⟩ <;> simp [to_bool, h1, h2]
    · refine ⟨?_, ?_, ?_⟩ <;> simp [to_bool, h1, h2]

/-- C9.  For `0 < v < 2^32` with no clan flag and no extra arguments,
`make_steam64` takes the 32-bit-account-id branch: universe Public (1), type
Individual (1), instance 1, producing
`1 <<< 56 ||| 1 <<< 52 ||| 1 <<< 32 ||| v`, which is below `2^64`. -/
theorem C9_make_steam64_account_id (v : Nat) (h1 : 0 < v) (h2 : v < 2 ^ 32) :
    make_steam64 v false = 1 <<< 56 ||| 1 <<< 52 ||| 1 <<< 32 ||| v ∧
    make_steam64 v false < 2 ^ 64 := by
  have hb : make_steam64 v false = 1 <<< 56 ||| 1 <<< 52 ||| 1 <<< 32 ||| v := by
    unfold make_steam64
    rw [if_pos (⟨h1, h2⟩ : 0 < v ∧ v < 2 ^ 32)]
    rfl
  refine ⟨hb, ?_⟩
  rw [hb]
  have e56 : (1 : Nat) <<< 56 = 2 ^ 56 := by simp [Nat.shiftLeft_eq]
  have e52 : (1 : Nat) <<< 52 = 2 ^ 52 := by simp [Nat.shiftLeft_eq]
  have e32 : (1 : Nat) <<< 32 = 2 ^ 32 := by simp [Nat.shiftLeft_eq]
  have h56 : (1 : Nat) <<< 56 < 2 ^ 64 := by rw [e56]; norm_num
  have h52 : (1 : Nat) <<< 52 < 2 ^ 64 := by rw [e52]; norm_num
  have h32 : (1 : Nat) <<< 32 < 2 ^ 64 := by rw [e32]; norm_num
  have hv : v < 2 ^ 64 := lt_trans h2 (by norm_num)
  exact Nat.or_lt_two_pow (Nat.or_lt_two_pow (Nat.or_lt_two_pow h56 h52) h32) hv

/-- Witness for C9 at the concrete account id 12345. -/
theorem C9_make_steam64_account_id_witness :
    0 < 12345 ∧ 12345 < 2 ^ 32 ∧
    (make_steam64 12345 false = 1 <<< 56 ||| 1 <<< 52 ||| 1 <<< 32 ||| 12345 ∧
      make_steam64 12345 false < 2 ^ 64) :=
  ⟨by decide, by norm_num,
    C9_make_steam64_account_id 12345 (by decide) (by norm_num)⟩

/-- C10.  On any class built by `EnumMeta.__new__`, every attribute
assignment and every attribute deletion raises `TypeError` — no mutated class
value is ever produced, so the member-name and value mappings built by the
metaclass are immutable. -/
theorem C10_enum_class_immutable (attrs : List (String × Int)) :
    (∀ name value, enumSetattr (enumMetaNew attrs) name value
        = .error (.typeError "Enums are immutable.")) ∧
    (∀ a, enumDelattr (enumMetaNew attrs) a
        = .error (.typeError "Enums are immutable")) :=
  ⟨fun _ _ => rfl, fun _ => rfl⟩

/-- C3 counterexample.  The claim puts the command's own error hook first in
the chain.  With a listener registered under `on_command_error` *and* a
command carrying its own `on_error` hook, the code invokes the listeners and
stops — the command hook never runs. -/
theorem C3_counterexample_listeners_first :
    on_command_error [("on_command_error", [5])] errCtxWithHook
      = .listenersInvoked [5] ∧
    Handled.listenersInvoked [5] ≠ .commandHook 7 := by
  exact ⟨rfl, by decide⟩

/-- C3 as amended.  The chain order actually implemented is: externally
registered listeners for the default handler's event name first (all invoked
when the table has an entry, and the chain stops — even on an empty entry);
otherwise the command's own error hook if present; then the owning Cog's hook
when the context's cog exists and is not the bot itself; and only last the
printed command name and error trace. -/
theorem C3_amended_chain_order (table : List (String × List Nat)) (ctx : ErrCtx) :
    on_command_error table ctx = errorChainAmendedSpec table ctx := by
  obtain ⟨cmd, cog⟩ := ctx
  cases htab : dlookup table "on_command_error" with
  | some ls => simp [on_command_error, errorChainAmendedSpec, htab]
  | none =>
    cases cmd with
    | some c =>
      cases hc : c.onError with
      | some h => simp [on_command_error, errorChainAmendedSpec, htab, hc]
      | none =>
        cases cog with
        | none =>
          simp [on_command_error, errorChainAmendedSpec, cogTierOrPrint, htab, hc]
        | some cg =>
          obtain ⟨ib, cid⟩ := cg
          cases ib <;>
            simp [on_command_error, errorChainAmendedSpec, cogTierOrPrint, htab, hc]
    | none =>
      cases cog with
      | none =>
        simp [on_command_error, errorChainAmendedSpec, cogTierOrPrint, htab]
      | some cg =>
        obtain ⟨ib, cid⟩ := cg
        cases ib <;>
          simp [on_command_error, errorChainAmendedSpec, cogTierOrPrint, htab]

/-- C4 counterexample.  The claim says a failed gate is always observable as
a raised error (a generic `CheckFailure` when a predicate returns false).
Evaluating the code: a bot-global check returning false makes `Bot.can_run`
return `False` silently, and a command-level check returning false is ignored
entirely — the gate returns `True`; neither raises. -/
theorem C4_counterexample_silent_false :
    botCanRun [fun _ => Except.ok false] ([] : List (CheckFun Unit)) ()
      = .ok false ∧
    botCanRun ([] : List (CheckFun Unit)) [fun _ => Except.ok false] ()
      = .ok true ∧
    (Except.ok false : Except PyErr Bool) ≠ .error .checkFailure ∧
    (Except.ok true : Except PyErr Bool) ≠ .error .checkFailure := by
  exact ⟨rfl, rfl, by simp, by simp⟩

theorem commandCanRun_all_ok {κ : Type} (ctx : κ) :
    ∀ cs : List (CheckFun κ), (∀ c ∈ cs, ∃ b, c ctx = .ok b) →
      commandCanRun cs ctx = .ok true
  | [], _ => rfl
  | c :: rest, h => by
    obtain ⟨b, hb⟩ := h c (by simp)
    rw [commandCanRun, hb]
    exact commandCanRun_all_ok ctx rest (fun x hx => h x (by simp [hx]))

theorem commandCanRun_skip_ok {κ : Type} (ctx : κ) :
    ∀ (cs1 rest : List (CheckFun κ)), (∀ c ∈ cs1, ∃ b, c ctx = .ok b) →
      commandCanRun (cs1 ++ rest) ctx = commandCanRun rest ctx
  | [], rest, _ => rfl
  | c :: cs1, rest, h => by
    obtain ⟨b, hb⟩ := h c (by simp)
    rw [List.cons_append, commandCanRun, hb]
    exact commandCanRun_skip_ok ctx cs1 rest (fun x hx => h x (by simp [hx]))

theorem botCanRun_skip_true {κ : Type} (ctx : κ) :
    ∀ (gs1 rest cs : List (CheckFun κ)), (∀ c ∈ gs1, c ctx = .ok true) →
      botCanRun (gs1 ++ rest) cs ctx = botCanRun rest cs ctx
  | [], _, _, _ => rfl
  | g :: gs1, rest, cs, h => by
    rw [List.cons_append, botCanRun, h g (by simp)]
    exact botCanRun_skip_true ctx gs1 rest cs (fun x hx => h x (by simp [hx]))

/-- C4 as amended.  The gate runs bot-global checks first, in order: a raising
global check propagates its error, and the first global check returning false
ends the gate with the silent result `False` (no `CheckFailure` is raised).
When every global check returns true, the command's own checks run in order:
a raising command check propagates its error, but a command check's boolean
result — false included — is ignored, and the gate returns `True`. -/
theorem C4_amended_check_gate {κ : Type} (ctx : κ) :
    (∀ (gs1 gs2 cs : List (CheckFun κ)) (g : CheckFun κ),
        (∀ c ∈ gs1, c ctx = .ok true) → g ctx = .ok false →
        botCanRun (gs1 ++ g :: gs2) cs ctx = .ok false) ∧
    (∀ (gs1 gs2 cs : List (CheckFun κ)) (g : CheckFun κ) (e : PyErr),
        (∀ c ∈ gs1, c ctx = .ok true) → g ctx = .error e →
        botCanRun (gs1 ++ g :: gs2) cs ctx = .error e) ∧
    (∀ (gs cs : List (CheckFun κ)),
        (∀ c ∈ gs, c ctx = .ok true) → (∀ c ∈ cs, ∃ b, c ctx = .ok b) →
        botCanRun gs cs ctx = .ok true) ∧
    (∀ (gs cs1 cs2 : List (CheckFun κ)) (c : CheckFun κ) (e : PyErr),
        (∀ x ∈ gs, x ctx = .ok true) → (∀ x ∈ cs1, ∃ b, x ctx = .ok b) →
        c ctx = .error e →
        botCanRun gs (cs1 ++ c :: cs2) ctx = .error e) := by
  refine ⟨?_, ?_, ?_, ?_⟩
  · intro gs1 gs2 cs g h1 hg
    rw [botCanRun_skip_true ctx gs1 (g :: gs2) cs h1, botCanRun, hg]
  · intro gs1 gs2 cs g e h1 hg
    rw [botCanRun_skip_true ctx gs1 (g :: gs2) cs h1, botCanRun, hg]
  · intro gs cs h1 h2
    have hnil : botCanRun (gs ++ []) cs ctx = botCanRun [] cs ctx :=
      botCanRun_skip_true ctx gs [] cs h1
    rw [List.append_nil] at hnil
    rw [hnil, botCanRun, commandCanRun_all_ok ctx cs h2]
  · intro gs cs1 cs2 c e h1 h2 hc
    have hnil : botCanRun (gs ++ []) (cs1 ++ c :: cs2) ctx
        = botCanRun [] (cs1 ++ c :: cs2) ctx :=
      botCanRun_skip_true ctx gs [] (cs1 ++ c :: cs2) h1
    rw [List.append_nil] at hnil
    rw [hnil, botCanRun, commandCanRun_skip_ok ctx cs1 (c :: cs2) h2,
      commandCanRun, hc]

/-- Witness for C4 at concrete checks over the unit context. -/
theorem C4_amended_check_gate_witness :
    (fun _ => Except.ok false : CheckFun Unit) () = Except.ok false ∧
    botCanRun [fun _ => Except.ok false] ([fun _ => Except.ok true] : List (CheckFun Unit)) ()
      = .ok false :=
  ⟨rfl,
    (C4_amended_check_gate ()).1 [] [] [fun _ => Except.ok true]
      (fun _ => Except.ok false) (by simp) rfl⟩

/-- C5 counterexample.  The claim says a remaining token without exactly one
`=` fails with `BadArgument`.  Evaluating the code on the token `c`: the dict
comprehension unpacks `"c".split("=") == ["c"]` into `(key, value)` and
raises `ValueError`, not `BadArgument`. -/
theorem C5_counterexample_valueerror_not_badargument :
    bindVarKeywordPairs ["c"] = .error .valueError ∧
    isBadArgumentFailure (bindVarKeywordPairs ["c"]) = false := by
  exact ⟨rfl, rfl⟩

theorem buildKwargs_bad (ps : List (List String)) :
    ∀ acc : List (String × String), (∃ p ∈ ps, p.length ≠ 2) →
      buildKwargs acc ps = .error .valueError := by
  induction ps with
  | nil => intro acc h; simp at h
  | cons p rest ih =>
    intro acc h
    match p with
    | [] => rfl
    | [k] => rfl
    | [k, v] =>
      show buildKwargs (dinsert acc k v) rest = .error .valueError
      apply ih
      obtain ⟨q, hq, hlen⟩ := h
      rcases List.mem_cons.mp hq with hq1 | hq2
      · subst hq1; simp at hlen
      · exact ⟨q, hq2, hlen⟩
    | k :: v :: w :: t => rfl

/-- C5 as amended.  Tokens `a=1 b=2` bound to a VarKeywordPairs parameter with
the default string converters yield the mapping `{"a": "1", "b": "2"}`; a
remaining token that does not split into exactly two parts around `=` (i.e.
does not contain exactly one `=`, such as the bare token `c`) makes the
binding fail with `ValueError` from tuple unpacking, not `BadArgument`. -/
theorem C5_amended_kwargs_binding :
    bindVarKeywordPairs ["a=1", "b=2"] = .ok [("a", "1"), ("b", "2")] ∧
    ∀ (ts : List String) (t : String), t ∈ ts → (splitEq t).length ≠ 2 →
      bindVarKeywordPairs ts = .error .valueError := by
  constructor
  · rfl
  · intro ts t ht hlen
    apply buildKwargs_bad
    exact ⟨splitEq t, List.mem_map_of_mem _ ht, hlen⟩

/-- Witness for C5 on a token list containing the bare token `c`. -/
theorem C5_amended_kwargs_binding_witness :
    (splitEq "c").length ≠ 2 ∧
    bindVarKeywordPairs ["x=1", "c"] = .error .valueError :=
  ⟨by decide,
    C5_amended_kwargs_binding.2 ["x=1", "c"] "c" (by simp) (by decide)⟩

/-- C6 counterexample.  The claim says a multi-segment lookup returns nothing
when the command resolved at a non-final segment is not a Group.  Evaluating
the code with a plain (non-group) command `foo` registered: the path
`foo bar` returns the command `foo` itself, not nothing. -/
theorem C6_counterexample_nongroup_midpath :
    get_command [("foo", fooPlain)] "foo bar" = some fooPlain ∧
    some fooPlain ≠ (none : Option Cmd) := by
  exact ⟨rfl, by simp⟩

theorem getPath_eq_resolvePathSpec :
    ∀ (p : List String) (reg : Registry), p ≠ [] →
      getPath reg p = resolvePathSpec reg p
  | [], _, h => absurd rfl h
  | [_], _, _ => rfl
  | n :: m :: rest, reg, _ => by
    cases hl : dlookup reg n with
    | none => simp [getPath, resolvePathSpec, hl]
    | some c =>
      obtain ⟨nm, al, i, g, sub⟩ := c
      cases g
      · simp [getPath, resolvePathSpec, hl]
      · simp only [getPath, resolvePathSpec, hl]
        exact getPath_eq_resolvePathSpec (m :: rest) sub (by simp)

/-- C6 as amended.  A lookup without a space returns the mapped command or
nothing.  A space-containing lookup that splits into two or more segments
traverses registries segment by segment: a missing segment yields nothing,
a Group continues the traversal, and a non-Group command resolved at a
non-final segment is returned itself (remaining segments ignored). -/
theorem C6_amended_get_command (reg : Registry) (name n : String)
    (rest : List String) :
    (¬ ' ' ∈ name.data → get_command reg name = dlookup reg name) ∧
    (' ' ∈ name.data → pySplit name = n :: rest → rest ≠ [] →
      get_command reg name = resolvePathSpec reg (n :: rest)) := by
  constructor
  · intro h
    simp [get_command, h]
  · intro hsp hsplit hne
    rw [get_command, if_neg (not_not_intro hsp), hsplit]
    cases rest with
    | nil => exact absurd rfl hne
    | cons r rs =>
      cases hl : dlookup reg n with
      | none => simp [resolvePathSpec, hl]
      | some c =>
        obtain ⟨nm, al, i, g, sub⟩ := c
        cases g
        · simp [resolvePathSpec, hl]
        · simp only [resolvePathSpec, hl]
          exact getPath_eq_resolvePathSpec (r :: rs) sub (by simp)

/-- Witness for C6 on the concrete group path `conf set`. -/
theorem C6_amended_get_command_witness :
    (' ' ∈ "conf set".data) ∧ pySplit "conf set" = ["conf", "set"] ∧
    get_command [("conf", confGroup)] "conf set"
      = resolvePathSpec [("conf", confGroup)] ["conf", "set"] :=
  ⟨by decide, rfl,
    (C6_amended_get_command [("conf", confGroup)] "conf set" "conf" ["set"]).2
      (by decide) rfl (by simp)⟩

theorem dlookup_append {α : Type} (d₁ d₂ : List (String × α)) (k : String) :
    dlookup (d₁ ++ d₂) k
      = match dlookup d₁ k with
        | some v => some v
        | none => dlookup d₂ k := by
  induction d₁ with
  | nil => simp [dlookup]
  | cons p rest ih =>
    obtain ⟨k₀, v₀⟩ := p
    by_cases h : k₀ = k <;> simp [dlookup, h, ih]

theorem dinsertAll_append {α : Type} (d : List (String × α))
    (xs ys : List (String × α)) :
    dinsertAll d (xs ++ ys) = dinsertAll (dinsertAll d xs) ys := by
  simp [dinsertAll, List.foldl_append]

theorem eraseKeys_append {α : Type} (d : List (String × α))
    (xs ys : List String) :
    eraseKeys d (xs ++ ys) = eraseKeys (eraseKeys d xs) ys := by
  simp [eraseKeys, List.foldl_append]

theorem foldAddL_append (d : List (String × List Nat))
    (xs ys : List (String × Nat)) :
    foldAddL d (xs ++ ys) = foldAddL (foldAddL d xs) ys := by
  simp [foldAddL, List.foldl_append]

theorem foldRemL_append (d : List (String × List Nat))
    (xs ys : List (String × Nat)) :
    foldRemL d (xs ++ ys) = foldRemL (foldRemL d xs) ys := by
  simp [foldRemL, List.foldl_append]

theorem dlookup_dinsertAll_not_mem {α : Type} (ps : List (String × α)) :
    ∀ (d : List (String × α)) (k : String), k ∉ ps.map Prod.fst →
      dlookup (dinsertAll d ps) k = dlookup d k := by
  induction ps with
  | nil => intro d k _; rfl
  | cons p rest ih =>
    intro d k h
    simp only [List.map_cons, List.mem_cons] at h
    push_neg at h
    show dlookup (dinsertAll (dinsert d p.1 p.2) rest) k = dlookup d k
    rw [ih (dinsert d p.1 p.2) k h.2, dlookup_dinsert, if_neg h.1]

theorem dlookup_dinsertAll_congr {α : Type} (ps : List (String × α)) :
    ∀ (d₁ d₂ : List (String × α)) (k : String),
      dlookup d₁ k = dlookup d₂ k →
      dlookup (dinsertAll d₁ ps) k = dlookup (dinsertAll d₂ ps) k := by
  induction ps with
  | nil => intro d₁ d₂ k h; exact h
  | cons p rest ih =>
    intro d₁ d₂ k h
    show dlookup (dinsertAll (dinsert d₁ p.1 p.2) rest) k
        = dlookup (dinsertAll (dinsert d₂ p.1 p.2) rest) k
    apply ih
    rw [dlookup_dinsert, dlookup_dinsert]
    by_cases hk : k = p.1 <;> simp [hk, h]

theorem dlookup_eraseKeys {α : Type} (ks : List String) :
    ∀ (d : List (String × α)) (k : String),
      dlookup (eraseKeys d ks) k = if k ∈ ks then none else dlookup d k := by
  induction ks with
  | nil => intro d k; simp [eraseKeys]
  | cons a rest ih =>
    intro d k
    show dlookup (eraseKeys (derase d a) rest) k = _
    rw [ih (derase d a) k]
    by_cases hk : k ∈ rest
    · simp [hk]
    · by_cases ha : k = a <;> simp [hk, ha, dlookup_derase]

theorem dinsertAll_fresh_append {α : Type} (ps : List (String × α)) :
    ∀ d : List (String × α), (∀ p ∈ ps, dlookup d p.1 = none) →
      (ps.map Prod.fst).Nodup → dinsertAll d ps = d ++ ps := by
  induction ps with
  | nil => intro d _ _; simp [dinsertAll]
  | cons p rest ih =>
    intro d hf hn
    show dinsertAll (dinsert d p.1 p.2) rest = d ++ p :: rest
    rw [dinsert_fresh d p.1 p.2 (hf p (by simp)), Prod.mk.eta]
    simp only [List.map_cons, List.nodup_cons] at hn
    rw [ih (d ++ [p]) ?_ hn.2]
    · simp
    · intro q hq
      rw [dlookup_append, hf q (by simp [hq])]
      have hne : p.1 ≠ q.1 := by
        intro hcontra
        exact hn.1 (hcontra ▸ List.mem_map_of_mem Prod.fst hq)
      simp [dlookup, hne]

theorem dlookup_addL (d : List (String × List Nat)) (ev : String) (l : Nat)
    (k : String) :
    dlookup (addL d ev l) k
      = if k = ev then some ((dlookup d ev).getD [] ++ [l]) else dlookup d k := by
  unfold addL
  cases h : dlookup d ev <;> simp [h, dlookup_dinsert]

theorem dlookup_remL (d : List (String × List Nat)) (ev : String) (l : Nat)
    (k : String) :
    dlookup (remL d ev l) k
      = if k = ev then (dlookup d ev).map (fun ls => ls.erase l)
        else dlookup d k := by
  unfold remL
  cases h : dlookup d ev with
  | none =>
    by_cases hk : k = ev <;> simp [h, hk]
  | some ls => simp [h, dlookup_dinsert]

theorem selEv_cons (p : String × Nat) (ps : List (String × Nat)) (ev : String) :
    selEv (p :: ps) ev
      = if p.1 = ev then p.2 :: selEv ps ev else selEv ps ev := by
  by_cases h : p.1 = ev <;> simp [selEv, List.filter_cons, h]

theorem combineAdd_some (xs : List Nat) (s : List Nat) :
    combineAdd (some xs) s = some (xs ++ s) := by
  cases s <;> simp [combineAdd]

theorem combineAdd_cons (o : Option (List Nat)) (x : Nat) (s : List Nat) :
    combineAdd o (x :: s) = some (o.getD [] ++ x :: s) := by
  cases o <;> simp [combineAdd]

theorem dlookup_foldAddL (ps : List (String × Nat)) :
    ∀ (d : List (String × List Nat)) (ev : String),
      dlookup (foldAddL d ps) ev = combineAdd (dlookup d ev) (selEv ps ev) := by
  induction ps with
  | nil =>
    intro d ev
    cases h : dlookup d ev <;> simp [foldAddL, selEv, combineAdd, h]
  | cons p rest ih =>
    intro d ev
    show dlookup (foldAddL (addL d p.1 p.2) rest) ev = _
    rw [ih (addL d p.1 p.2) ev, dlookup_addL, selEv_cons]
    by_cases h : ev = p.1
    · subst h
      rw [if_pos rfl, if_pos rfl, combineAdd_some, combineAdd_cons]
      simp
    · rw [if_neg h, if_neg (fun hc => h hc.symm)]

theorem dlookup_foldRemL (ps : List (String × Nat)) :
    ∀ (d : List (String × List Nat)) (ev : String),
      dlookup (foldRemL d ps) ev
        = (dlookup d ev).map (fun ls => eraseSeq ls (selEv ps ev)) := by
  induction ps with
  | nil =>
    intro d ev
    cases h : dlookup d ev <;> simp [foldRemL, selEv, eraseSeq, h]
  | cons p rest ih =>
    intro d ev
    show dlookup (foldRemL (remL d p.1 p.2) rest) ev = _
    rw [ih (remL d p.1 p.2) ev, dlookup_remL, selEv_cons]
    by_cases h : ev = p.1
    · subst h
      rw [if_pos rfl, if_pos rfl, Option.map_map]
      rfl
    · rw [if_neg h, if_neg (fun hc => h hc.symm)]

theorem eraseSeq_append_of_not_mem :
    ∀ (s g : List Nat), (∀ l ∈ s, l ∉ g) → eraseSeq (g ++ s) s = g
  | [], g, _ => by simp [eraseSeq]
  | x :: s', g, h => by
    show eraseSeq ((g ++ x :: s').erase x) s' = g
    rw [List.erase_append_right _ (h x (by simp)), List.erase_cons_head]
    exact eraseSeq_append_of_not_mem s' g (fun l hl => h l (by simp [hl]))

theorem combineAdd_round (g : Option (List Nat)) (s : List Nat)
    (h : ∀ l ∈ s, l ∉ g.getD []) :
    combineAdd ((combineAdd g s).map (fun ls => eraseSeq ls s)) s
      = combineAdd g s := by
  match g, s with
  | none, [] => rfl
  | none, x :: s' =>
    have h1 : combineAdd none (x :: s') = some ([] ++ x :: s') :=
      combineAdd_cons none x s'
    have h2 : eraseSeq ([] ++ x :: s') (x :: s') = [] :=
      eraseSeq_append_of_not_mem (x :: s') [] (by simp)
    rw [h1]
    show combineAdd (some (eraseSeq ([] ++ x :: s') (x :: s'))) (x :: s')
        = some ([] ++ x :: s')
    rw [h2, combineAdd_some]
  | some ls, s =>
    have h1 : combineAdd (some ls) s = some (ls ++ s) := combineAdd_some ls s
    have h2 : eraseSeq (ls ++ s) s = ls :=
      eraseSeq_append_of_not_mem s ls (by simpa using h)
    rw [h1]
    show combineAdd (some (eraseSeq (ls ++ s) s)) s = some (ls ++ s)
    rw [h2, combineAdd_some]

theorem injectCogs_fields (cs : List CogM) :
    ∀ st : BotState,
      (injectCogs st cs).commands = dinsertAll st.commands (catCmds cs) ∧
      (injectCogs st cs).listeners = foldAddL st.listeners (catListeners cs) ∧
      (injectCogs st cs).cogs
        = dinsertAll st.cogs (cs.map (fun c => (c.qualifiedName, c))) ∧
      (injectCogs st cs).extensions = st.extensions ∧
      (injectCogs st cs).modules = st.modules := by
  induction cs with
  | nil =>
    intro st
    exact ⟨rfl, rfl, rfl, rfl, rfl⟩
  | cons c rest ih =>
    intro st
    obtain ⟨h1, h2, h3, h4, h5⟩ := ih (addCog st c)
    refine ⟨?_, ?_, ?_, ?_, ?_⟩
    · show (injectCogs (addCog st c) rest).commands = _
      rw [h1]
      show dinsertAll (dinsertAll st.commands c.cmds) (catCmds rest)
          = dinsertAll st.commands (c.cmds ++ catCmds rest)
      rw [dinsertAll_append]
    · show (injectCogs (addCog st c) rest).listeners = _
      rw [h2]
      show foldAddL (foldAddL st.listeners c.listenerDecls) (catListeners rest)
          = foldAddL st.listeners (c.listenerDecls ++ catListeners rest)
      rw [foldAddL_append]
    · show (injectCogs (addCog st c) rest).cogs = _
      rw [h3]
      rfl
    · show (injectCogs (addCog st c) rest).extensions = _
      rw [h4]
      rfl
    · show (injectCogs (addCog st c) rest).modules = _
      rw [h5]
      rfl

theorem removeCogs_fields (cs : List CogM) :
    ∀ st : BotState,
      (removeCogs st cs).commands
        = eraseKeys st.commands ((catCmds cs).map Prod.fst) ∧
      (removeCogs st cs).listeners = foldRemL st.listeners (catListeners cs) ∧
      (removeCogs st cs).cogs = eraseKeys st.cogs (cs.map CogM.qualifiedName) ∧
      (removeCogs st cs).extensions = st.extensions ∧
      (removeCogs st cs).modules = st.modules := by
  induction cs with
  | nil =>
    intro st
    exact ⟨rfl, rfl, rfl, rfl, rfl⟩
  | cons c rest ih =>
    intro st
    obtain ⟨h1, h2, h3, h4, h5⟩ := ih (removeCog st c)
    refine ⟨?_, ?_, ?_, ?_, ?_⟩
    · show (removeCogs (removeCog st c) rest).commands = _
      rw [h1]
      show eraseKeys (eraseKeys st.commands (c.cmds.map Prod.fst))
            ((catCmds rest).map Prod.fst)
          = eraseKeys st.commands ((c.cmds ++ catCmds rest).map Prod.fst)
      rw [List.map_append, eraseKeys_append]
    · show (removeCogs (removeCog st c) rest).listeners = _
      rw [h2]
      show foldRemL (foldRemL st.listeners c.listenerDecls) (catListeners rest)
          = foldRemL st.listeners (c.listenerDecls ++ catListeners rest)
      rw [foldRemL_append]
    · show (removeCogs (removeCog st c) rest).cogs = _
      rw [h3]
      rfl
    · show (removeCogs (removeCog st c) rest).extensions = _
      rw [h4]
      rfl
    · show (removeCogs (removeCog st c) rest).modules = _
      rw [h5]
      rfl

theorem runSetup_none (cs : List CogM) :
    ∀ st : BotState, runSetup st cs none = (injectCogs st cs, none) := by
  induction cs with
  | nil => intro st; rfl
  | cons c rest ih =>
    intro st
    show runSetup (addCog st c) rest none = _
    exact ih (addCog st c)

theorem load_single_proj (b : BotState) (m : PyModule) (name : String)
    (hset : m.hasSetup = true) (hfa : m.failAfter = none)
    (hext : dlookup b.extensions name = none) :
    (loadExtension b [(name, m)] name).2 = none ∧
    (loadExtension b [(name, m)] name).1.commands
      = dinsertAll b.commands (catCmds m.cogs) ∧
    (loadExtension b [(name, m)] name).1.listeners
      = foldAddL b.listeners (catListeners m.cogs) ∧
    (loadExtension b [(name, m)] name).1.cogs
      = dinsertAll b.cogs (m.cogs.map (fun c => (c.qualifiedName, c))) ∧
    (loadExtension b [(name, m)] name).1.extensions
      = dinsert b.extensions name m ∧
    (loadExtension b [(name, m)] name).1.modules
      = dinsert b.modules name m := by
  have hc : dcontains b.extensions name = false := by
    simp [dcontains, hext]
  have hl : dlookup [(name, m)] name = some m := by simp [dlookup]
  have heq : loadExtension b [(name, m)] name
      = (let st₁ : BotState := { b with modules := dinsert b.modules name m }
         let st₂ := injectCogs st₁ m.cogs
         ({ st₂ with extensions := dinsert st₂.extensions name m }, none)) := by
    unfold loadExtension
    rw [hc, hl]
    simp only [hset, hfa, Bool.false_eq_true, if_false, not_true_eq_false,
      runSetup_none]
  obtain ⟨f1, f2, f3, f4, f5⟩ :=
    injectCogs_fields m.cogs { b with modules := dinsert b.modules name m }
  rw [heq]
  exact ⟨rfl, f1, f2, f3, by rw [show ({ b with modules := dinsert b.modules name m } : BotState).extensions = b.extensions from rfl] at f4; simp only [f4], by simp only [f5]⟩

theorem unload_proj (b : BotState) (m : PyModule) (name : String)
    (hmod : ∀ c ∈ m.cogs, c.module = name)
    (hbmod : ∀ p ∈ b.cogs, ¬ p.2.module = name)
    (hcogs : ∀ c ∈ m.cogs, dlookup b.cogs c.qualifiedName = none)
    (hgnodup : (m.cogs.map CogM.qualifiedName).Nodup)
    (st₀ : BotState)
    (h3 : st₀.cogs
      = dinsertAll b.cogs (m.cogs.map (fun c => (c.qualifiedName, c))))
    (h4 : st₀.extensions = dinsert b.extensions name m)
    (h5 : st₀.modules = dinsert b.modules name m) :
    (unloadExtension st₀ name).2 = none ∧
    (unloadExtension st₀ name).1.commands
      = eraseKeys st₀.commands ((catCmds m.cogs).map Prod.fst) ∧
    (unloadExtension st₀ name).1.listeners
      = foldRemL st₀.listeners (catListeners m.cogs) ∧
    (unloadExtension st₀ name).1.cogs
      = eraseKeys st₀.cogs (m.cogs.map CogM.qualifiedName) ∧
    (unloadExtension st₀ name).1.extensions = derase st₀.extensions name ∧
    (unloadExtension st₀ name).1.modules = derase st₀.modules name := by
  have hlookup : dlookup st₀.extensions name = some m := by
    rw [h4, dlookup_dinsert]
    simp
  have hpairs :
      st₀.cogs = b.cogs ++ m.cogs.map (fun c => (c.qualifiedName, c)) := by
    rw [h3]
    apply dinsertAll_fresh_append
    · intro p hp
      obtain ⟨c, hc, rfl⟩ := List.mem_map.mp hp
      exact hcogs c hc
    · rw [List.map_map]
      exact hgnodup
  have hfilter :
      st₀.cogs.filter (fun p => p.2.module = name)
        = m.cogs.map (fun c => (c.qualifiedName, c)) := by
    rw [hpairs, List.filter_append]
    have hb0 : b.cogs.filter (fun p => decide (p.2.module = name)) = [] :=
      List.filter_eq_nil_iff.mpr (fun p hp => by simp [hbmod p hp])
    have hm0 :
        (m.cogs.map (fun c => (c.qualifiedName, c))).filter
            (fun p => decide (p.2.module = name))
          = m.cogs.map (fun c => (c.qualifiedName, c)) :=
      List.filter_eq_self.mpr (fun p hp => by
        obtain ⟨c, hc, rfl⟩ := List.mem_map.mp hp
        simp [hmod c hc])
    rw [hb0, hm0, List.nil_append]
  obtain ⟨r1, r2, r3, r4, r5⟩ := removeCogs_fields m.cogs st₀
  have hdc : dcontains (removeCogs st₀ m.cogs).modules name = true := by
    rw [r5, h5]
    simp [dcontains, dlookup_dinsert]
  have hddel : ddel (removeCogs st₀ m.cogs).modules name
      = (derase (removeCogs st₀ m.cogs).modules name, none) := by
    unfold ddel
    rw [hdc]
    simp
  refine ⟨?_, ?_, ?_, ?_, ?_, ?_⟩ <;>
    simp only [unloadExtension, hlookup, hfilter, List.foldl_map] <;>
    simp only [show List.foldl (fun x y => removeCog x y) st₀ m.cogs
        = removeCogs st₀ m.cogs from rfl, hddel]
  · exact r1
  · exact r2
  · exact r3
  · show derase (removeCogs st₀ m.cogs).extensions name
        = derase st₀.extensions name
    rw [r4]
  · show derase (removeCogs st₀ m.cogs).modules name = derase st₀.modules name
    rw [r5]

/-- C2 as amended.  Consider an extension `name` loaded from a healthy module
`m` (its `setup` registers its cogs and does not raise) into a base state `b`
whose tables are fresh for `m`'s registrations, with cog membership tied to
`name` and module teardown effect-free.  If the load phase of
`reload(name)` fails *without performing any registrations* (hypothesis
`hload` — e.g. the module on disk is missing or lacks `setup`, or its `setup`
raises before registering anything), then the previous module's `setup` is
re-run, the extension is re-registered under `name`, the original error is
re-raised, and the command, listener, cog and extension tables are equal as
mappings to the pre-reload state.  (When the failing load phase registers
anything before raising, the registrations survive — see the
counterexample.) -/
theorem C2_amended_reload_restores_on_clean_failure
    (b : BotState) (m : PyModule) (name : String)
    (env : List (String × PyModule)) (e : PyErr) (st₀ : BotState)
    (hst : loadExtension b [(name, m)] name = (st₀, none))
    (hset : m.hasSetup = true) (hfa : m.failAfter = none)
    (hmod : ∀ c ∈ m.cogs, c.module = name)
    (hbmod : ∀ p ∈ b.cogs, ¬ p.2.module = name)
    (hext : dlookup b.extensions name = none)
    (hcmds : ∀ p ∈ catCmds m.cogs, dlookup b.commands p.1 = none)
    (hcogs : ∀ c ∈ m.cogs, dlookup b.cogs c.qualifiedName = none)
    (hgnodup : (m.cogs.map CogM.qualifiedName).Nodup)
    (hls : ∀ p ∈ catListeners m.cogs, p.2 ∉ (dlookup b.listeners p.1).getD [])
    (hload : ∀ s : BotState, dlookup s.extensions name = none →
      (loadExtension s env name).2 = some e ∧
      (loadExtension s env name).1.commands = s.commands ∧
      (loadExtension s env name).1.listeners = s.listeners ∧
      (loadExtension s env name).1.cogs = s.cogs ∧
      (loadExtension s env name).1.extensions = s.extensions) :
    (reloadExtension st₀ env name).2 = some e ∧
    (∀ k, dlookup (reloadExtension st₀ env name).1.commands k
        = dlookup st₀.commands k) ∧
    (∀ k, dlookup (reloadExtension st₀ env name).1.listeners k
        = dlookup st₀.listeners k) ∧
    (∀ k, dlookup (reloadExtension st₀ env name).1.cogs k
        = dlookup st₀.cogs k) ∧
    (∀ k, dlookup (reloadExtension st₀ env name).1.extensions k
        = dlookup st₀.extensions k) := by
  obtain ⟨l0, l1, l2, l3, l4, l5⟩ := load_single_proj b m name hset hfa hext
  rw [hst] at l1 l2 l3 l4 l5
  obtain ⟨u0, u1, u2, u3, u4, u5⟩ :=
    unload_proj b m name hmod hbmod hcogs hgnodup st₀ l3 l4 l5
  rcases hU : unloadExtension st₀ name with ⟨U, uerr⟩
  rw [hU] at u0 u1 u2 u3 u4 u5
  have u0' : uerr = none := u0
  subst u0'
  have u1' : U.commands
      = eraseKeys st₀.commands ((catCmds m.cogs).map Prod.fst) := u1
  have u2' : U.listeners = foldRemL st₀.listeners (catListeners m.cogs) := u2
  have u3' : U.cogs = eraseKeys st₀.cogs (m.cogs.map CogM.qualifiedName) := u3
  have u4' : U.extensions = derase st₀.extensions name := u4
  have hUext : dlookup U.extensions name = none := by
    rw [u4', dlookup_derase]
    simp
  obtain ⟨f0, f1, f2, f3, f4⟩ := hload U hUext
  rcases hF : loadExtension U env name with ⟨F, ferr⟩
  rw [hF] at f0 f1 f2 f3 f4
  have f0' : ferr = some e := f0
  subst f0'
  have f1' : F.commands = U.commands := f1
  have f2' : F.listeners = U.listeners := f2
  have f3' : F.cogs = U.cogs := f3
  have f4' : F.extensions = U.extensions := f4
  have hst₀ext : dlookup st₀.extensions name = some m := by
    rw [l4, dlookup_dinsert]
    simp
  have hreload : reloadExtension st₀ env name
      = restorePrevious F m name e := by
    simp only [reloadExtension, hst₀ext, hU, hF]
  have hrest : restorePrevious F m name e
      = (let R := injectCogs F m.cogs
         ({ R with extensions := dinsert R.extensions name m,
                   modules := dinsert R.modules name m }, some e)) := by
    unfold restorePrevious
    rw [hfa, runSetup_none]
  obtain ⟨g1, g2, g3, g4, g5⟩ := injectCogs_fields m.cogs F
  rw [hreload, hrest]
  refine ⟨rfl, ?_, ?_, ?_, ?_⟩
  · intro k
    show dlookup (injectCogs F m.cogs).commands k = dlookup st₀.commands k
    rw [g1, f1', u1', l1]
    apply dlookup_dinsertAll_congr
    rw [dlookup_eraseKeys]
    by_cases hk : k ∈ (catCmds m.cogs).map Prod.fst
    · rw [if_pos hk]
      obtain ⟨p, hp, rfl⟩ := List.mem_map.mp hk
      exact (hcmds p hp).symm
    · rw [if_neg hk, dlookup_dinsertAll_not_mem (catCmds m.cogs) _ k hk]
  · intro k
    show dlookup (injectCogs F m.cogs).listeners k = dlookup st₀.listeners k
    rw [g2, f2', u2', l2]
    rw [dlookup_foldAddL, dlookup_foldRemL, dlookup_foldAddL]
    apply combineAdd_round
    intro l hl
    obtain ⟨p, hp, rfl⟩ := List.mem_map.mp hl
    have hmem := List.mem_filter.mp hp
    have hev : p.1 = k := by simpa using hmem.2
    have hfresh := hls p hmem.1
    rwa [hev] at hfresh
  · intro k
    show dlookup (injectCogs F m.cogs).cogs k = dlookup st₀.cogs k
    rw [g3, f3', u3', l3]
    apply dlookup_dinsertAll_congr
    rw [dlookup_eraseKeys]
    have hkeys : (m.cogs.map (fun c => (c.qualifiedName, c))).map Prod.fst
        = m.cogs.map CogM.qualifiedName := by
      rw [List.map_map]
      rfl
    by_cases hk : k ∈ m.cogs.map CogM.qualifiedName
    · rw [if_pos hk]
      obtain ⟨c, hc, rfl⟩ := List.mem_map.mp hk
      exact (hcogs c hc).symm
    · rw [if_neg hk]
      rw [dlookup_dinsertAll_not_mem
        (m.cogs.map (fun c => (c.qualifiedName, c))) _ k (by rwa [hkeys])]
  · intro k
    show dlookup (dinsert (injectCogs F m.cogs).extensions name m) k
        = dlookup st₀.extensions k
    rw [g4, f4', u4', l4]
    rw [dlookup_dinsert, dlookup_dinsert]
    by_cases hk : k = name
    · simp [hk]
    · rw [if_neg hk, if_neg hk, dlookup_derase, if_neg hk, dlookup_dinsert,
        if_neg hk]

/-- Witness for C2: `modPrev` loaded into the empty state gives `stPrev`;
reloading when the on-disk module lacks `setup` re-raises `ImportError` and
leaves every table as it was. -/
theorem C2_amended_reload_restores_witness :
    loadExtension emptyBot [("ext", modPrev)] "ext" = (stPrev, none) ∧
    (reloadExtension stPrev envNoSetup "ext").2 = some (.importError "ext") ∧
    dlookup (reloadExtension stPrev envNoSetup "ext").1.commands "acmd"
      = dlookup stPrev.commands "acmd" ∧
    dlookup (reloadExtension stPrev envNoSetup "ext").1.listeners "on_x"
      = dlookup stPrev.listeners "on_x" ∧
    dlookup (reloadExtension stPrev envNoSetup "ext").1.cogs "A"
      = dlookup stPrev.cogs "A" ∧
    dlookup (reloadExtension stPrev envNoSetup "ext").1.extensions "ext"
      = dlookup stPrev.extensions "ext" := by
  have h := C2_amended_reload_restores_on_clean_failure emptyBot modPrev "ext"
    envNoSetup (.importError "ext") stPrev rfl rfl rfl
    (by decide) (by simp [emptyBot]) rfl (by decide) (by decide) (by decide)
    (by decide)
    (fun s hs => by
      have hred : loadExtension s envNoSetup "ext"
          = ({ s with
                modules := derase (dinsert s.modules "ext" modNoSetup) "ext" },
              some (.importError "ext")) := by
        unfold loadExtension
        rw [show dcontains s.extensions "ext" = false from by
          simp [dcontains, hs]]
        simp [dlookup, envNoSetup, modNoSetup]
      rw [hred]
      exact ⟨rfl, rfl, rfl, rfl, rfl⟩)
  exact ⟨rfl, h.1, h.2.1 "acmd", h.2.2.1 "on_x", h.2.2.2.1 "A",
    h.2.2.2.2 "ext"⟩

/-- C2 counterexample.  The claim says that after a failed load phase of
`reload`, the tables equal the pre-reload state exactly.  Evaluating the
code with `modPrev` loaded and a replacement module on disk whose `setup`
registers cog `X` (command `xcmd`) and then raises: the original error is
re-raised and the snapshot is re-registered, but `xcmd` — registered by the
failed load phase — survives in the command table, which therefore differs
from the pre-reload state. -/
theorem C2_counterexample_partial_load_survives :
    (reloadExtension stPrev envBad "ext").2 = some .setupRaised ∧
    dlookup (reloadExtension stPrev envBad "ext").1.commands "xcmd" = some 2 ∧
    dlookup stPrev.commands "xcmd" = none := by
  exact ⟨rfl, rfl, rfl⟩

end SteamPy
